import Mathlib

/-!
Verification of the starfish spot detection core
(starfish/core/spots/DetectSpots/detect.py) against its specification.

The four functions of detect.py are embedded shallowly:
measure_spot_intensity, measure_spot_intensities,
concatenate_spot_attributes_to_intensities and detect_spots.
Spot center coordinates are modelled as integers (the astype int cast on
the bound columns at line 61 of the source is then the identity), radii as
rationals, and pixel values as rationals.  The external collaborators
ImageStack and IntensityTable, whose sources are not part of this tree, are
modelled from the specification.
-/

/-- numpy astype int on a rational: truncation toward zero. -/
def astypeInt (q : ℚ) : ℤ := if 0 ≤ q then ⌊q⌋ else ⌈q⌉

/-- One row of a SpotAttributes table: the center coordinate per spatial
axis and the detector-reported radius. -/
structure Spot where
  z : ℤ
  y : ℤ
  x : ℤ
  radius : ℚ
  deriving DecidableEq

/-- A SpotAttributes table as consumed by measure_spot_intensity.  The y and
x coordinate columns are always present; hasZ records whether the z column
is present (reading a missing column raises KeyError in the source). -/
structure SpotsIn where
  hasZ : Bool
  rows : List Spot
  deriving DecidableEq

/-- A numpy ndarray or xarray view: its shape (one entry per axis) and a
pixel accessor over the first three axes.  Only images with at least three
axes are sliced successfully by the source code. -/
structure PyImage where
  shape : List ℕ
  pix : ℤ → ℤ → ℤ → ℚ

/-- Python slice normalization on an axis of length L: a negative index
wraps by adding L, then the result is clamped into the interval from 0
to L. -/
def pyClamp (L : ℕ) (i : ℤ) : ℤ :=
  max 0 (min (if i < 0 then i + L else i) L)

/-- The indices selected by the python slice a : b on an axis of length L:
the integers from the clamped start (inclusive) to the clamped stop
(exclusive). -/
def pySliceIdx (L : ℕ) (a b : ℤ) : List ℤ :=
  (List.range' (pyClamp L a).toNat ((pyClamp L b).toNat - (pyClamp L a).toNat)).map
    Int.ofNat

/-- The sub-array image[zmin:zmax, ymin:ymax, xmin:xmax] of a 3-d image as a
nested list of pixel values, with python slice semantics on each axis. -/
def subArray (img : PyImage) (zmin zmax ymin ymax xmin xmax : ℤ) :
    List (List (List ℚ)) :=
  (pySliceIdx (img.shape.getD 0 0) zmin zmax).map (fun i =>
    (pySliceIdx (img.shape.getD 1 0) ymin ymax).map (fun j =>
      (pySliceIdx (img.shape.getD 2 0) xmin xmax).map (fun k => img.pix i j k)))

/-- The type of the caller-supplied measurement (reduction) function. -/
abbrev Meas := List (List (List ℚ)) → ℚ

/-- The integer radius computed at lines 53-56 of detect.py: ceiling plus
one under the radius-of-gyration policy, astype int truncation otherwise. -/
def spotRadiusInt (radius_is_gyration : Bool) (r : ℚ) : ℤ :=
  if radius_is_gyration then ⌈r⌉ + 1 else astypeInt r

/-- The six bounding-box columns written onto the spots table by
measure_spot_intensity (lines 57-60 of detect.py). -/
structure Box where
  z_min : ℤ
  z_max : ℤ
  y_min : ℤ
  y_max : ℤ
  x_min : ℤ
  x_max : ℤ
  deriving DecidableEq

/-- The bounding box of one spot (lines 57-60 of detect.py): per axis,
min = clip(center - (radius - 1), lower bound 0) and
max = clip(center + radius, upper bound axis length). -/
def spotBox (shape : List ℕ) (radius_is_gyration : Bool) (s : Spot) : Box :=
  let radius := spotRadiusInt radius_is_gyration s.radius
  { z_min := max (s.z - (radius - 1)) 0
    z_max := min (s.z + radius) (shape.getD 0 0 : ℕ)
    y_min := max (s.y - (radius - 1)) 0
    y_max := min (s.y + radius) (shape.getD 1 0 : ℕ)
    x_min := max (s.x - (radius - 1)) 0
    x_max := min (s.x + radius) (shape.getD 2 0 : ℕ) }

/-- The inner function fn of measure_spot_intensity (lines 45-51 of
detect.py): slice the image at the box of one row and reduce it with the
measurement function. -/
def boxValue (img : PyImage) (M : Meas) (b : Box) : ℚ :=
  M (subArray img b.z_min b.z_max b.y_min b.y_max b.x_min b.x_max)

/-- measure_spot_intensity (lines 16-64 of detect.py).  The call fails when
the spots table has no z column (KeyError reading column z) or the image has
fewer than three shape entries (KeyError selecting a missing bound column,
or IndexError slicing with too many indices); otherwise it returns the
per-spot measured values together with the six bounding-box columns written
onto the callers table. -/
def measure_spot_intensity (image : PyImage) (spots : SpotsIn) (M : Meas)
    (radius_is_gyration : Bool) : Except Unit (List ℚ × List Box) :=
  if spots.hasZ = true ∧ 3 ≤ image.shape.length then
    let boxes := spots.rows.map (spotBox image.shape radius_is_gyration)
    .ok (boxes.map (boxValue image M), boxes)
  else
    .error ()

/-- Modelled from the spec: the IntensityTable collaborator (its source is
not in this tree) - a feature times channel times round tensor of scalars
together with the per-feature side table of spot attributes and the channel
and round axis labels. -/
structure IntensityTable where
  spot_attrs : List Spot
  ch_labels : List ℤ
  round_labels : List ℤ
  data : ℕ → ℤ → ℤ → ℚ

attribute [ext] IntensityTable

/-- Modelled from the spec: IntensityTable.zeros allocates a zero-filled
tensor sized by the spot count and the given round and channel label
lists. -/
def IntensityTable.zeros (spot_attrs : List Spot)
    (round_labels ch_labels : List ℤ) : IntensityTable :=
  { spot_attrs := spot_attrs
    ch_labels := ch_labels
    round_labels := round_labels
    data := fun _ _ _ => 0 }

/-- Modelled from the spec: the xarray loc assignment of a whole feature
column at one fixed (channel, round) coordinate pair (line 121 of
detect.py). -/
def IntensityTable.setColumn (t : IntensityTable) (c r : ℤ) (vals : List ℚ) :
    IntensityTable :=
  { t with data := fun i c2 r2 =>
      if c2 = c ∧ r2 = r then vals.getD i 0 else t.data i c2 r2 }

/-- Modelled from the spec: the xarray loc assignment of one single
(feature, channel, round) cell (line 160 of detect.py). -/
def IntensityTable.setCell (t : IntensityTable) (i : ℕ) (c r : ℤ) (v : ℚ) :
    IntensityTable :=
  { t with data := fun i2 c2 r2 =>
      if i2 = i ∧ c2 = c ∧ r2 = r then v else t.data i2 c2 r2 }

/-- Modelled from the spec: the ImageStack collaborator (its source is not
in this tree) - channel and round axis label enumerations, 3-d slice
retrieval per (channel, round) pair, the raw xarray view, and max
projection over a named axis set followed by squeezing to a plain array. -/
structure ImageStack where
  ch_labels : List ℤ
  round_labels : List ℤ
  slice : ℤ → ℤ → PyImage
  xarrayImg : PyImage
  maxProjSqueezed : List ℕ → PyImage

/-- The frame loop of measure_spot_intensities (lines 112-121 of detect.py):
for each (channel, round) pair retrieve the slice, measure every spot in it,
and assign the resulting column into the table.  An error raised by
measure_spot_intensity propagates. -/
def fillLoop (data_image : ImageStack) (spots : SpotsIn) (M : Meas)
    (radius_is_gyration : Bool) :
    List (ℤ × ℤ) → IntensityTable → Except Unit IntensityTable
  | [], t => .ok t
  | cr :: rest, t =>
    match measure_spot_intensity (data_image.slice cr.1 cr.2) spots M
        radius_is_gyration with
    | .error e => .error e
    | .ok res =>
      fillLoop data_image spots M radius_is_gyration rest
        (t.setColumn cr.1 cr.2 res.1)

/-- measure_spot_intensities (lines 67-123 of detect.py).  Besides the
filled table, the embedding returns the list of (channel, round) pairs for
which get_slice was called, so that frame reads are observable. -/
def measure_spot_intensities (data_image : ImageStack)
    (spot_attributes : SpotsIn) (M : Meas) (radius_is_gyration : Bool) :
    Except Unit (IntensityTable × List (ℤ × ℤ)) :=
  let ch_labels := data_image.ch_labels
  let round_labels := data_image.round_labels
  let intensity_table :=
    IntensityTable.zeros spot_attributes.rows round_labels ch_labels
  if intensity_table.spot_attrs.length = 0 then
    .ok (intensity_table, [])
  else
    match fillLoop data_image spot_attributes M radius_is_gyration
        (ch_labels ×ˢ round_labels) intensity_table with
    | .error e => .error e
    | .ok t => .ok (t, ch_labels ×ˢ round_labels)

/-- One row of a per-frame detection table: the spot attributes plus the
spot_id and intensity columns produced by the detector (both dropped from
the side table at line 150 of detect.py). -/
structure FoundSpot where
  attrs : Spot
  spot_id : ℤ
  intensity : ℚ
  deriving DecidableEq

/-- A SpotAttributes table as returned by the pluggable detector. -/
structure DetectedTable where
  hasZ : Bool
  rows : List FoundSpot
  deriving DecidableEq

/-- The coordinate and radius columns of a detection table, as consumed by
measure_spot_intensity. -/
def DetectedTable.toSpotsIn (d : DetectedTable) : SpotsIn :=
  { hasZ := d.hasZ, rows := d.rows.map (fun row => row.attrs) }

/-- python sorted(set(xs)): the distinct values in ascending order (lines
145-146 of detect.py). -/
def sortedSet (xs : List ℤ) : List ℤ :=
  List.insertionSort (fun a b => a ≤ b) xs.dedup

/-- The inner write loop of concatenate_spot_attributes_to_intensities for
one frame (lines 158-161 of detect.py): assign the intensity of each row
into the tensor at (running feature index, frame channel, frame round). -/
def writeFrame (key : ℤ × ℤ) (rows : List FoundSpot)
    (acc : IntensityTable × ℕ) : IntensityTable × ℕ :=
  rows.foldl
    (fun acc2 row => (acc2.1.setCell acc2.2 key.1 key.2 row.intensity, acc2.2 + 1))
    acc

/-- concatenate_spot_attributes_to_intensities (lines 126-163 of detect.py).
Each element of the input pairs one detection table with its (channel,
round) frame key. -/
def concatenate_spot_attributes_to_intensities
    (spot_attributes : List (DetectedTable × (ℤ × ℤ))) : IntensityTable :=
  let ch_values := sortedSet (spot_attributes.map (fun p => p.2.1))
  let round_values := sortedSet (spot_attributes.map (fun p => p.2.2))
  let all_spots := (spot_attributes.map (fun p => p.1.rows)).flatten
  let features_coordinates := all_spots.map (fun row => row.attrs)
  let t0 := IntensityTable.zeros features_coordinates round_values ch_values
  (spot_attributes.foldl (fun acc p => writeFrame p.2 p.1.rows acc) (t0, 0)).1

/-- Modelled from the spec: the grouped parallel map of the ImageStack -
apply func to every (channel, round) frame slice of the stack and collect
the (result, frame key) pairs in the grouping enumeration order. -/
def ImageStack.transform (stack : ImageStack)
    (func : PyImage → DetectedTable) : List (DetectedTable × (ℤ × ℤ)) :=
  (stack.ch_labels ×ˢ stack.round_labels).map
    (fun cr => (func (stack.slice cr.1 cr.2), cr))

/-- detect_spots (lines 166-248 of detect.py).  The physical-coordinate
transfer collaborator is passed as the function argument transfer (modelled
from the spec: it maps the produced table to the table with physical
coordinates attached). -/
def detect_spots (transfer : ImageStack → IntensityTable → IntensityTable)
    (data_stack : ImageStack) (spot_finding_method : PyImage → DetectedTable)
    (reference_image : Option ImageStack)
    (reference_image_max_projection_axes : Option (List ℕ))
    (measurement_function : Meas) (radius_is_gyration : Bool) :
    Except Unit IntensityTable :=
  match reference_image with
  | some ref =>
    let data_image : PyImage :=
      match reference_image_max_projection_axes with
      | some axes => ref.maxProjSqueezed axes
      | none => ref.xarrayImg
    let reference_spot_locations := spot_finding_method data_image
    match measure_spot_intensities data_stack
        reference_spot_locations.toSpotsIn measurement_function
        radius_is_gyration with
    | .error e => .error e
    | .ok res => .ok (transfer data_stack res.1)
  | none =>
    let spot_attributes_list := data_stack.transform spot_finding_method
    .ok (transfer data_stack
      (concatenate_spot_attributes_to_intensities spot_attributes_list))

/-! Spec-side formulas, written following the claim wording, to be compared
with the source-derived definitions above. -/

/-- Spec wording: effective radius is the ceiling of the raw radius plus one
under the radius-of-gyration policy, and truncation toward zero otherwise. -/
def specEffRadius (radius_is_gyration : Bool) (r : ℚ) : ℤ :=
  if radius_is_gyration then ⌈r⌉ + 1 else if 0 ≤ r then ⌊r⌋ else ⌈r⌉

/-- Spec wording: box_min = clip(center - (radius - 1), lower bound 0). -/
def specBoxMin (center radius : ℤ) : ℤ :=
  max (center - (radius - 1)) 0

/-- Spec wording: box_max = clip(center + radius, upper bound axis
length). -/
def specBoxMax (center radius : ℤ) (axis_length : ℕ) : ℤ :=
  min (center + radius) axis_length

/-- The bounding box of a spot as the claims word it, per axis. -/
def specBox (Lz Ly Lx : ℕ) (radius_is_gyration : Bool) (s : Spot) : Box :=
  { z_min := specBoxMin s.z (specEffRadius radius_is_gyration s.radius)
    z_max := specBoxMax s.z (specEffRadius radius_is_gyration s.radius) Lz
    y_min := specBoxMin s.y (specEffRadius radius_is_gyration s.radius)
    y_max := specBoxMax s.y (specEffRadius radius_is_gyration s.radius) Ly
    x_min := specBoxMin s.x (specEffRadius radius_is_gyration s.radius)
    x_max := specBoxMax s.x (specEffRadius radius_is_gyration s.radius) Lx }

/-! Helper lemmas. -/

theorem spotRadiusInt_eq_spec (g : Bool) (r : ℚ) :
    spotRadiusInt g r = specEffRadius g r := by
  simp [spotRadiusInt, specEffRadius, astypeInt]

theorem spotBox_eq_spec (Lz Ly Lx : ℕ) (g : Bool) (s : Spot) :
    spotBox [Lz, Ly, Lx] g s = specBox Lz Ly Lx g s := by
  simp [spotBox, specBox, specBoxMin, specBoxMax, spotRadiusInt_eq_spec]

theorem measure_spot_intensity_ok (image : PyImage) (spots : SpotsIn)
    (M : Meas) (g : Bool) (hz : spots.hasZ = true)
    (hsh : 3 ≤ image.shape.length) :
    measure_spot_intensity image spots M g =
      .ok ((spots.rows.map (spotBox image.shape g)).map (boxValue image M),
           spots.rows.map (spotBox image.shape g)) := by
  rw [measure_spot_intensity, if_pos ⟨hz, hsh⟩]

theorem astypeInt_le_ceil_add_one (r : ℚ) : astypeInt r ≤ ⌈r⌉ + 1 := by
  have h := Int.floor_le_ceil r
  rw [astypeInt]
  split <;> omega

/-! The claims about the Bounding-Box Sampler. -/

/-- C1: for every spot and every spatial axis, measure_spot_intensity
computes box_min = clip(center - (effective_radius - 1), lower bound 0) and
box_max = clip(center + effective_radius, upper bound axis_length), with
effective_radius the ceiling of the raw radius plus one under the gyration
policy and its truncation toward zero otherwise, and the returned per-spot
value equals the caller-supplied measurement function applied to the
sub-array of the image at those bounds. -/
theorem C1_bounding_box_sampler (image : PyImage) (spots : SpotsIn)
    (M : Meas) (g : Bool) (Lz Ly Lx : ℕ) (hsh : image.shape = [Lz, Ly, Lx])
    (hz : spots.hasZ = true) :
    ∃ vals boxes,
      measure_spot_intensity image spots M g = .ok (vals, boxes) ∧
      ∀ (i : ℕ) (s : Spot), spots.rows[i]? = some s →
        boxes[i]? = some (specBox Lz Ly Lx g s) ∧
        vals[i]? = some (M (subArray image
          (specBoxMin s.z (specEffRadius g s.radius))
          (specBoxMax s.z (specEffRadius g s.radius) Lz)
          (specBoxMin s.y (specEffRadius g s.radius))
          (specBoxMax s.y (specEffRadius g s.radius) Ly)
          (specBoxMin s.x (specEffRadius g s.radius))
          (specBoxMax s.x (specEffRadius g s.radius) Lx))) := by
  refine ⟨_, _, measure_spot_intensity_ok image spots M g hz (by rw [hsh]; exact Nat.le_refl 3), ?_⟩
  intro i s hi
  rw [hsh]
  constructor
  · rw [List.getElem?_map, hi, Option.map_some', spotBox_eq_spec]
  · rw [List.getElem?_map, List.getElem?_map, hi, Option.map_some',
      Option.map_some', spotBox_eq_spec]
    rfl

/-- A concrete measurement function for witnesses: the sum of all pixel
values of the sub-array. -/
def wM : Meas := fun a => (a.flatten.flatten).foldr (fun p q => p + q) 0

/-- A concrete 1 by 1 by 1 image of constant pixel value 7. -/
def wImg : PyImage := { shape := [1, 1, 1], pix := fun _ _ _ => 7 }

/-- A concrete one-row spots table with z present, center (0,0,0) and
radius 1. -/
def wSpots : SpotsIn := { hasZ := true, rows := [⟨0, 0, 0, 1⟩] }

theorem C1_bounding_box_sampler_witness :
    ∃ vals boxes,
      measure_spot_intensity wImg wSpots wM false = .ok (vals, boxes) ∧
      ∀ (i : ℕ) (s : Spot), wSpots.rows[i]? = some s →
        boxes[i]? = some (specBox 1 1 1 false s) ∧
        vals[i]? = some (wM (subArray wImg
          (specBoxMin s.z (specEffRadius false s.radius))
          (specBoxMax s.z (specEffRadius false s.radius) 1)
          (specBoxMin s.y (specEffRadius false s.radius))
          (specBoxMax s.y (specEffRadius false s.radius) 1)
          (specBoxMin s.x (specEffRadius false s.radius))
          (specBoxMax s.x (specEffRadius false s.radius) 1))) :=
  C1_bounding_box_sampler wImg wSpots wM false 1 1 1 rfl rfl

/-- C3: for every spot, every radius value and every radius policy, the
computed box satisfies 0 ≤ box_min and box_max ≤ axis_length on each axis,
and every index lying inside the box on an axis lies inside the image on
that axis, regardless of how far center - radius or center + radius would
otherwise extend. -/
theorem C3_clipping_invariant (shape : List ℕ) (g : Bool) (s : Spot) :
    ((0 ≤ (spotBox shape g s).z_min ∧
        (spotBox shape g s).z_max ≤ (shape.getD 0 0 : ℤ)) ∧
      (0 ≤ (spotBox shape g s).y_min ∧
        (spotBox shape g s).y_max ≤ (shape.getD 1 0 : ℤ)) ∧
      (0 ≤ (spotBox shape g s).x_min ∧
        (spotBox shape g s).x_max ≤ (shape.getD 2 0 : ℤ))) ∧
    ((∀ k : ℤ, (spotBox shape g s).z_min ≤ k → k < (spotBox shape g s).z_max →
        0 ≤ k ∧ k < (shape.getD 0 0 : ℤ)) ∧
      (∀ k : ℤ, (spotBox shape g s).y_min ≤ k → k < (spotBox shape g s).y_max →
        0 ≤ k ∧ k < (shape.getD 1 0 : ℤ)) ∧
      (∀ k : ℤ, (spotBox shape g s).x_min ≤ k → k < (spotBox shape g s).x_max →
        0 ≤ k ∧ k < (shape.getD 2 0 : ℤ))) := by
  simp only [spotBox]
  refine ⟨⟨⟨?_, ?_⟩, ⟨?_, ?_⟩, ⟨?_, ?_⟩⟩, ?_, ?_, ?_⟩ <;> omega

theorem C3_clipping_invariant_witness :
    (0 ≤ (spotBox [5, 5, 5] false ⟨2, 2, 2, 10⟩).z_min ∧
      (spotBox [5, 5, 5] false ⟨2, 2, 2, 10⟩).z_max ≤ 5) ∧
    (0 ≤ (4 : ℤ) ∧ (4 : ℤ) < 5) := by
  have h := C3_clipping_invariant [5, 5, 5] false ⟨2, 2, 2, 10⟩
  exact ⟨by simpa using h.1.1, h.2.1 4 (by decide) (by decide)⟩

/-- C4: for every spot and every axis, the box computed under the gyration
policy contains the box computed under truncation for the same nominal
radius: its minimum is at most and its maximum is at least the truncation
bounds. -/
theorem C4_gyration_box_contains (shape : List ℕ) (s : Spot) :
    (spotBox shape true s).z_min ≤ (spotBox shape false s).z_min ∧
    (spotBox shape false s).z_max ≤ (spotBox shape true s).z_max ∧
    (spotBox shape true s).y_min ≤ (spotBox shape false s).y_min ∧
    (spotBox shape false s).y_max ≤ (spotBox shape true s).y_max ∧
    (spotBox shape true s).x_min ≤ (spotBox shape false s).x_min ∧
    (spotBox shape false s).x_max ≤ (spotBox shape true s).x_max := by
  have h : spotRadiusInt false s.radius ≤ spotRadiusInt true s.radius := by
    simpa [spotRadiusInt] using astypeInt_le_ceil_add_one s.radius
  simp only [spotBox]
  generalize spotRadiusInt false s.radius = a at h
  generalize spotRadiusInt true s.radius = b at h
  refine ⟨?_, ?_, ?_, ?_, ?_, ?_⟩ <;> omega

/-- C10: measure_spot_intensity requires a 3-d image and a spots table
holding the z column: an image with fewer than three shape entries fails
with an error, a spots table lacking the z column fails with an error, and
every successful call returns the measured values together with the six
bounding-box columns written onto the callers table. -/
theorem C10_requires_3d_and_z (image : PyImage) (spots : SpotsIn) (M : Meas)
    (g : Bool) :
    (image.shape.length < 3 →
      measure_spot_intensity image spots M g = .error ()) ∧
    (spots.hasZ = false →
      measure_spot_intensity image spots M g = .error ()) ∧
    (spots.hasZ = true → 3 ≤ image.shape.length →
      measure_spot_intensity image spots M g =
        .ok ((spots.rows.map (spotBox image.shape g)).map (boxValue image M),
             spots.rows.map (spotBox image.shape g))) := by
  refine ⟨?_, ?_, ?_⟩
  · intro hlen
    rw [measure_spot_intensity, if_neg]
    rintro ⟨-, h3⟩
    omega
  · intro hzf
    rw [measure_spot_intensity, if_neg]
    rintro ⟨hz, -⟩
    rw [hzf] at hz
    exact Bool.false_ne_true hz
  · intro hz hsh
    exact measure_spot_intensity_ok image spots M g hz hsh

theorem C10_requires_3d_and_z_witness :
    measure_spot_intensity ⟨[4, 4], fun _ _ _ => 0⟩ wSpots wM false =
      .error () ∧
    measure_spot_intensity wImg ⟨false, wSpots.rows⟩ wM false = .error () ∧
    measure_spot_intensity wImg wSpots wM false =
      .ok ((wSpots.rows.map (spotBox wImg.shape false)).map (boxValue wImg wM),
           wSpots.rows.map (spotBox wImg.shape false)) :=
  ⟨(C10_requires_3d_and_z ⟨[4, 4], fun _ _ _ => 0⟩ wSpots wM false).1
      (by decide),
   (C10_requires_3d_and_z wImg ⟨false, wSpots.rows⟩ wM false).2.1 rfl,
   (C10_requires_3d_and_z wImg wSpots wM false).2.2 rfl (by decide)⟩

/-! Helper lemmas about degenerate and singleton python slices. -/

theorem pyClamp_of_nonneg (L : ℕ) (i : ℤ) (h : 0 ≤ i) :
    pyClamp L i = min i L := by
  unfold pyClamp
  rw [if_neg (by omega)]
  omega

theorem pySliceIdx_empty (L : ℕ) (a b : ℤ) (h : pyClamp L b ≤ pyClamp L a) :
    pySliceIdx L a b = [] := by
  unfold pySliceIdx
  have h0 : (pyClamp L b).toNat - (pyClamp L a).toNat = 0 := by omega
  rw [h0]
  rfl

theorem pySliceIdx_singleton (L : ℕ) (a : ℤ) (h0 : 0 ≤ a) (hL : a < L) :
    pySliceIdx L a (a + 1) = [a] := by
  unfold pySliceIdx
  rw [pyClamp_of_nonneg L a h0, pyClamp_of_nonneg L (a + 1) (by omega)]
  have h1 : (min a (L : ℤ)).toNat = a.toNat := by omega
  have h2 : (min (a + 1) (L : ℤ)).toNat = a.toNat + 1 := by omega
  rw [h1, h2, Nat.add_sub_cancel_left]
  simp [List.range']
  omega

theorem spotBox_radius_zero (Lz Ly Lx : ℕ) (s : Spot) (hr : s.radius = 0)
    (h0z : 0 ≤ s.z) (h0y : 0 ≤ s.y) (h0x : 0 ≤ s.x) :
    spotBox [Lz, Ly, Lx] false s =
      ⟨s.z + 1, min s.z Lz, s.y + 1, min s.y Ly, s.x + 1, min s.x Lx⟩ := by
  simp [spotBox, spotRadiusInt, astypeInt, hr, Box.mk.injEq]
  omega

theorem spotBox_radius_one (Lz Ly Lx : ℕ) (s : Spot) (hr : s.radius = 1)
    (h0z : 0 ≤ s.z) (h0y : 0 ≤ s.y) (h0x : 0 ≤ s.x)
    (hLz : s.z < Lz) (hLy : s.y < Ly) (hLx : s.x < Lx) :
    spotBox [Lz, Ly, Lx] false s =
      ⟨s.z, s.z + 1, s.y, s.y + 1, s.x, s.x + 1⟩ := by
  simp [spotBox, spotRadiusInt, astypeInt, hr, Box.mk.injEq]
  omega

/-- A concrete 5 by 5 by 5 image of constant pixel value 7. -/
def cImg : PyImage := { shape := [5, 5, 5], pix := fun _ _ _ => 7 }

/-- A concrete one-row spots table: center (2, 2, 2) and radius 0. -/
def cSpots : SpotsIn := { hasZ := true, rows := [⟨2, 2, 2, 0⟩] }

/-- A concrete one-row spots table: center (2, 2, 2) and radius 1. -/
def c1Spots : SpotsIn := { hasZ := true, rows := [⟨2, 2, 2, 1⟩] }

/-- C2 counterexample: in a 5 by 5 by 5 image of constant value 7, a spot at
center (2, 2, 2) with radius 0 under truncation gets the box from 3 to 2 on
every axis - size 0, not size 1 - so the sub-array is empty and the measured
value is the reduction of the empty sub-array (0 for the sum reduction),
not the center pixel value 7. -/
theorem C2_zero_radius_counterexample :
    measure_spot_intensity cImg cSpots wM false =
      .ok ([0], [⟨3, 2, 3, 2, 3, 2⟩]) ∧
    subArray cImg 3 2 3 2 3 2 = [] ∧
    cImg.pix 2 2 2 = 7 ∧ (0 : ℚ) ≠ 7 := by
  refine ⟨rfl, rfl, rfl, by norm_num⟩

/-- C2 amended: for a spot with radius 0 under truncation (at non-negative
center coordinates) the box degenerates to size 0 per axis - bounds
center + 1 and min(center, axis length) - and the measured value is the
measurement function applied to the empty sub-array, not the center pixel;
the single-pixel property holds at radius 1 instead: the box is size 1 per
axis and the measured value is the measurement function applied to the
single center pixel. -/
theorem C2_zero_radius_amended (image : PyImage) (spots : SpotsIn) (M : Meas)
    (Lz Ly Lx : ℕ) (hsh : image.shape = [Lz, Ly, Lx]) (hz : spots.hasZ = true)
    (i : ℕ) (s : Spot) (hi : spots.rows[i]? = some s)
    (h0z : 0 ≤ s.z) (h0y : 0 ≤ s.y) (h0x : 0 ≤ s.x) :
    (s.radius = 0 →
      ∃ vals boxes,
        measure_spot_intensity image spots M false = .ok (vals, boxes) ∧
        boxes[i]? = some
          ⟨s.z + 1, min s.z Lz, s.y + 1, min s.y Ly, s.x + 1, min s.x Lx⟩ ∧
        vals[i]? = some (M [])) ∧
    (s.radius = 1 → s.z < Lz → s.y < Ly → s.x < Lx →
      ∃ vals boxes,
        measure_spot_intensity image spots M false = .ok (vals, boxes) ∧
        boxes[i]? = some ⟨s.z, s.z + 1, s.y, s.y + 1, s.x, s.x + 1⟩ ∧
        vals[i]? = some (M [[[image.pix s.z s.y s.x]]])) := by
  have hok := measure_spot_intensity_ok image spots M false hz
    (by rw [hsh]; exact Nat.le_refl 3)
  constructor
  · intro hr
    refine ⟨_, _, hok, ?_, ?_⟩
    · rw [List.getElem?_map, hi, Option.map_some', hsh,
        spotBox_radius_zero Lz Ly Lx s hr h0z h0y h0x]
    · rw [List.getElem?_map, List.getElem?_map, hi, Option.map_some',
        Option.map_some', hsh, spotBox_radius_zero Lz Ly Lx s hr h0z h0y h0x]
      have hemp : subArray image (s.z + 1) (min s.z Lz) (s.y + 1) (min s.y Ly)
          (s.x + 1) (min s.x Lx) = [] := by
        unfold subArray
        rw [hsh]
        simp only [List.getD_cons_zero, List.getD_cons_succ]
        rw [pySliceIdx_empty Lz (s.z + 1) (min s.z Lz) (by
          rw [pyClamp_of_nonneg Lz (s.z + 1) (by omega),
            pyClamp_of_nonneg Lz (min s.z Lz) (by omega)]
          omega)]
        rfl
      rw [boxValue]
      simp only [hemp]
  · intro hr hLz hLy hLx
    refine ⟨_, _, hok, ?_, ?_⟩
    · rw [List.getElem?_map, hi, Option.map_some', hsh,
        spotBox_radius_one Lz Ly Lx s hr h0z h0y h0x hLz hLy hLx]
    · rw [List.getElem?_map, List.getElem?_map, hi, Option.map_some',
        Option.map_some', hsh, spotBox_radius_one Lz Ly Lx s hr h0z h0y h0x hLz hLy hLx]
      have hone : subArray image s.z (s.z + 1) s.y (s.y + 1) s.x (s.x + 1) =
          [[[image.pix s.z s.y s.x]]] := by
        unfold subArray
        rw [hsh]
        simp only [List.getD_cons_zero, List.getD_cons_succ]
        rw [pySliceIdx_singleton Lz s.z h0z hLz,
          pySliceIdx_singleton Ly s.y h0y hLy,
          pySliceIdx_singleton Lx s.x h0x hLx]
        rfl
      rw [boxValue]
      simp only [hone]

theorem C2_zero_radius_amended_witness :
    (∃ vals boxes,
      measure_spot_intensity cImg cSpots wM false = .ok (vals, boxes) ∧
      boxes[(0 : ℕ)]? = some ⟨2 + 1, min 2 5, 2 + 1, min 2 5, 2 + 1, min 2 5⟩ ∧
      vals[(0 : ℕ)]? = some (wM [])) ∧
    (∃ vals boxes,
      measure_spot_intensity cImg c1Spots wM false = .ok (vals, boxes) ∧
      boxes[(0 : ℕ)]? = some ⟨2, 2 + 1, 2, 2 + 1, 2, 2 + 1⟩ ∧
      vals[(0 : ℕ)]? = some (wM [[[cImg.pix 2 2 2]]])) :=
  ⟨(C2_zero_radius_amended cImg cSpots wM 5 5 5 rfl rfl 0 ⟨2, 2, 2, 0⟩ rfl
      (by norm_num) (by norm_num) (by norm_num)).1 rfl,
   (C2_zero_radius_amended cImg c1Spots wM 5 5 5 rfl rfl 0 ⟨2, 2, 2, 1⟩ rfl
      (by norm_num) (by norm_num) (by norm_num)).2 rfl
      (by norm_num) (by norm_num) (by norm_num)⟩

/-- A concrete one-channel one-round stack whose every slice is the 1 by 1
by 1 constant image. -/
def wStack : ImageStack :=
  { ch_labels := [0], round_labels := [0], slice := fun _ _ => wImg,
    xarrayImg := wImg, maxProjSqueezed := fun _ => wImg }

/-- C5: for a spots table with zero rows, measure_spot_intensities returns
the zero-feature table immediately, with an empty get_slice log (no frame is
read from the stack); the zero-feature table is a valid result, not an
error. -/
theorem C5_empty_spot_table (stack : ImageStack) (spots : SpotsIn) (M : Meas)
    (g : Bool) (h : spots.rows = []) :
    measure_spot_intensities stack spots M g =
      .ok (IntensityTable.zeros spots.rows stack.round_labels stack.ch_labels,
           []) ∧
    (IntensityTable.zeros spots.rows stack.round_labels
        stack.ch_labels).spot_attrs.length = 0 := by
  constructor
  · unfold measure_spot_intensities
    rw [if_pos (by simp [IntensityTable.zeros, h])]
  · simp [IntensityTable.zeros, h]

theorem C5_empty_spot_table_witness :
    measure_spot_intensities wStack ⟨true, []⟩ wM false =
      .ok (IntensityTable.zeros (SpotsIn.mk true []).rows wStack.round_labels
             wStack.ch_labels, []) ∧
    (IntensityTable.zeros (SpotsIn.mk true []).rows wStack.round_labels
        wStack.ch_labels).spot_attrs.length = 0 :=
  C5_empty_spot_table wStack ⟨true, []⟩ wM false rfl

/-- The column of measured values written for one (channel, round) frame:
every spot measured in the slice of that frame. -/
def frameVals (stack : ImageStack) (spots : SpotsIn) (M : Meas) (g : Bool)
    (cr : ℤ × ℤ) : List ℚ :=
  (spots.rows.map (spotBox (stack.slice cr.1 cr.2).shape g)).map
    (boxValue (stack.slice cr.1 cr.2) M)

theorem fillLoop_ok (stack : ImageStack) (spots : SpotsIn) (M : Meas)
    (g : Bool) (hz : spots.hasZ = true)
    (hsh : ∀ c r, 3 ≤ (stack.slice c r).shape.length) (l : List (ℤ × ℤ)) :
    ∀ t, fillLoop stack spots M g l t =
      .ok (l.foldl
        (fun t2 cr => t2.setColumn cr.1 cr.2 (frameVals stack spots M g cr))
        t) := by
  induction l with
  | nil => intro t; rfl
  | cons cr rest ih =>
    intro t
    have hm := measure_spot_intensity_ok (stack.slice cr.1 cr.2) spots M g hz
      (hsh cr.1 cr.2)
    simp only [fillLoop, hm, List.foldl_cons]
    exact ih _

theorem foldl_setColumn_data (vals : ℤ × ℤ → List ℚ) (l : List (ℤ × ℤ)) :
    ∀ (t : IntensityTable) (i : ℕ) (c r : ℤ),
      (l.foldl (fun t2 cr => t2.setColumn cr.1 cr.2 (vals cr)) t).data i c r =
        if (c, r) ∈ l then (vals (c, r)).getD i 0 else t.data i c r := by
  induction l with
  | nil => intro t i c r; simp
  | cons cr rest ih =>
    intro t i c r
    rw [List.foldl_cons, ih]
    by_cases hmem : (c, r) ∈ rest
    · simp [hmem]
    · by_cases heq : (c, r) = cr
      · rw [← heq]
        simp [IntensityTable.setColumn, hmem]
      · have hne2 : ¬(c = cr.1 ∧ r = cr.2) := by
          rintro ⟨e1, e2⟩
          exact heq (by cases cr; simp_all)
        simp [IntensityTable.setColumn, hmem, heq, hne2]

theorem foldl_setColumn_fields (vals : ℤ × ℤ → List ℚ) (l : List (ℤ × ℤ)) :
    ∀ t : IntensityTable,
      (l.foldl (fun t2 cr => t2.setColumn cr.1 cr.2 (vals cr)) t).spot_attrs =
          t.spot_attrs ∧
      (l.foldl (fun t2 cr => t2.setColumn cr.1 cr.2 (vals cr)) t).ch_labels =
          t.ch_labels ∧
      (l.foldl (fun t2 cr => t2.setColumn cr.1 cr.2 (vals cr)) t).round_labels =
          t.round_labels := by
  induction l with
  | nil => intro t; exact ⟨rfl, rfl, rfl⟩
  | cons cr rest ih =>
    intro t
    rw [List.foldl_cons]
    exact ih _

theorem count_eq_one_of_nodup_mem {α} [BEq α] [LawfulBEq α] {l : List α}
    {a : α} (d : l.Nodup) (h : a ∈ l) : l.count a = 1 := by
  induction l with
  | nil => cases h
  | cons b tl ih =>
    rcases List.mem_cons.mp h with rfl | hmem
    · rw [List.count_cons_self]
      have h0 : tl.count a = 0 := by
        rw [List.count_eq_zero]
        exact (List.nodup_cons.mp d).1
      omega
    · have hne2 : a ≠ b := by
        rintro rfl
        exact (List.nodup_cons.mp d).1 hmem
      rw [List.count_cons_of_ne hne2]
      exact ih (List.nodup_cons.mp d).2 hmem

/-- C6: for N spots, C channels and R rounds, measure_spot_intensities
iterates over the cartesian product of the channel and round labels, writes
every cell exactly once (each (channel, round) pair occurs exactly once in
the iteration), each cell of the result equals the measurement function
applied to the box of that spot in that (channel, round) slice, and running
the fill loop along any permutation of the product produces the same
table. -/
theorem C6_tensor_assembler (stack : ImageStack) (spots : SpotsIn) (M : Meas)
    (g : Bool) (hz : spots.hasZ = true)
    (hsh : ∀ c r, 3 ≤ (stack.slice c r).shape.length)
    (hne : spots.rows ≠ []) (hcN : stack.ch_labels.Nodup)
    (hrN : stack.round_labels.Nodup) :
    ∃ t, measure_spot_intensities stack spots M g =
        .ok (t, stack.ch_labels ×ˢ stack.round_labels) ∧
      (∀ c r, c ∈ stack.ch_labels → r ∈ stack.round_labels →
        (stack.ch_labels ×ˢ stack.round_labels).count (c, r) = 1 ∧
        ∀ (i : ℕ) (s : Spot), spots.rows[i]? = some s →
          t.data i c r =
            boxValue (stack.slice c r) M
              (spotBox (stack.slice c r).shape g s)) ∧
      (∀ l : List (ℤ × ℤ), l.Perm (stack.ch_labels ×ˢ stack.round_labels) →
        fillLoop stack spots M g l
          (IntensityTable.zeros spots.rows stack.round_labels
            stack.ch_labels) = .ok t) := by
  have hfill := fillLoop_ok stack spots M g hz hsh
    (stack.ch_labels ×ˢ stack.round_labels)
    (IntensityTable.zeros spots.rows stack.round_labels stack.ch_labels)
  have hlen : ¬((IntensityTable.zeros spots.rows stack.round_labels
      stack.ch_labels).spot_attrs.length = 0) := by
    simpa [IntensityTable.zeros, List.length_eq_zero] using hne
  refine ⟨(stack.ch_labels ×ˢ stack.round_labels).foldl
      (fun t2 cr => t2.setColumn cr.1 cr.2 (frameVals stack spots M g cr))
      (IntensityTable.zeros spots.rows stack.round_labels stack.ch_labels),
    ?_, ?_, ?_⟩
  · unfold measure_spot_intensities
    rw [if_neg hlen, hfill]
  · intro c r hc hr
    constructor
    · exact count_eq_one_of_nodup_mem (hcN.product hrN)
        (List.mem_product.mpr ⟨hc, hr⟩)
    · intro i s hi
      rw [foldl_setColumn_data, if_pos (List.mem_product.mpr ⟨hc, hr⟩)]
      rw [frameVals, List.getD_eq_getElem?_getD, List.getElem?_map,
        List.getElem?_map, hi, Option.map_some', Option.map_some']
      rfl
  · intro l hl
    rw [fillLoop_ok stack spots M g hz hsh l]
    congr 1
    apply IntensityTable.ext
    · exact (foldl_setColumn_fields _ l _).1.trans
        ((foldl_setColumn_fields _ _ _).1).symm
    · exact (foldl_setColumn_fields _ l _).2.1.trans
        ((foldl_setColumn_fields _ _ _).2.1).symm
    · exact (foldl_setColumn_fields _ l _).2.2.trans
        ((foldl_setColumn_fields _ _ _).2.2).symm
    · funext i c r
      rw [foldl_setColumn_data, foldl_setColumn_data]
      by_cases hm2 : (c, r) ∈ stack.ch_labels ×ˢ stack.round_labels
      · rw [if_pos ((List.Perm.mem_iff hl).mpr hm2), if_pos hm2]
      · rw [if_neg (fun hx => hm2 ((List.Perm.mem_iff hl).mp hx)),
          if_neg hm2]

theorem C6_tensor_assembler_witness :
    ∃ t, measure_spot_intensities wStack wSpots wM false =
        .ok (t, wStack.ch_labels ×ˢ wStack.round_labels) ∧
      (∀ c r, c ∈ wStack.ch_labels → r ∈ wStack.round_labels →
        (wStack.ch_labels ×ˢ wStack.round_labels).count (c, r) = 1 ∧
        ∀ (i : ℕ) (s : Spot), wSpots.rows[i]? = some s →
          t.data i c r =
            boxValue (wStack.slice c r) wM
              (spotBox (wStack.slice c r).shape false s)) ∧
      (∀ l : List (ℤ × ℤ), l.Perm (wStack.ch_labels ×ˢ wStack.round_labels) →
        fillLoop wStack wSpots wM false l
          (IntensityTable.zeros wSpots.rows wStack.round_labels
            wStack.ch_labels) = .ok t) :=
  C6_tensor_assembler wStack wSpots wM false rfl (fun _ _ => Nat.le_refl 3)
    (by decide) (by decide) (by decide)

/-! Helper lemmas about sorted label sets and the merge write loop. -/

theorem sortedSet_sorted (xs : List ℤ) :
    (sortedSet xs).Sorted (fun a b => a ≤ b) :=
  List.sorted_insertionSort _ _

theorem sortedSet_nodup (xs : List ℤ) : (sortedSet xs).Nodup :=
  (List.perm_insertionSort _ _).nodup_iff.mpr (List.nodup_dedup xs)

theorem sortedSet_toFinset (xs : List ℤ) :
    (sortedSet xs).toFinset = xs.toFinset := by
  refine (List.toFinset_eq_of_perm _ _ (List.perm_insertionSort _ _)).trans ?_
  ext a
  simp [List.mem_toFinset, List.mem_dedup]

/-- All (row, frame key) pairs of a detection sequence, in the frame
iteration order of the merge loop. -/
def frameWrites (spot_attributes : List (DetectedTable × (ℤ × ℤ))) :
    List (FoundSpot × (ℤ × ℤ)) :=
  (spot_attributes.map (fun p => p.1.rows.map (fun row => (row, p.2)))).flatten

/-- Sequential single-cell writes at consecutive feature indices starting
from a given index. -/
def applyWrites (t : IntensityTable) (i : ℕ) :
    List (FoundSpot × (ℤ × ℤ)) → IntensityTable
  | [] => t
  | w :: ws => applyWrites (t.setCell i w.2.1 w.2.2 w.1.intensity) (i + 1) ws

theorem applyWrites_append (ws1 ws2 : List (FoundSpot × (ℤ × ℤ))) :
    ∀ (t : IntensityTable) (i : ℕ),
      applyWrites t i (ws1 ++ ws2) =
        applyWrites (applyWrites t i ws1) (i + ws1.length) ws2 := by
  induction ws1 with
  | nil => intro t i; simp [applyWrites]
  | cons w tl ih =>
    intro t i
    rw [List.cons_append, applyWrites, applyWrites, ih]
    have h : i + (w :: tl).length = (i + 1) + tl.length := by
      simp
      omega
    rw [h]

theorem writeFrame_eq (key : ℤ × ℤ) (rows : List FoundSpot) :
    ∀ acc : IntensityTable × ℕ,
      writeFrame key rows acc =
        (applyWrites acc.1 acc.2 (rows.map (fun row => (row, key))),
         acc.2 + rows.length) := by
  induction rows with
  | nil => intro acc; simp [writeFrame, applyWrites]
  | cons row tl ih =>
    intro acc
    rw [writeFrame, List.foldl_cons]
    have h := ih (acc.1.setCell acc.2 key.1 key.2 row.intensity, acc.2 + 1)
    rw [writeFrame] at h
    rw [h]
    simp [applyWrites]
    omega

theorem concat_loop_eq (sa : List (DetectedTable × (ℤ × ℤ))) :
    ∀ acc : IntensityTable × ℕ,
      sa.foldl (fun acc2 p => writeFrame p.2 p.1.rows acc2) acc =
        (applyWrites acc.1 acc.2 (frameWrites sa),
         acc.2 + (frameWrites sa).length) := by
  induction sa with
  | nil => intro acc; simp [frameWrites, applyWrites]
  | cons p tl ih =>
    intro acc
    rw [List.foldl_cons, ih, writeFrame_eq]
    have hfw : frameWrites (p :: tl) =
        p.1.rows.map (fun row => (row, p.2)) ++ frameWrites tl := by
      simp [frameWrites]
    rw [hfw, applyWrites_append]
    simp
    omega

theorem applyWrites_fields (ws : List (FoundSpot × (ℤ × ℤ))) :
    ∀ (t : IntensityTable) (i : ℕ),
      (applyWrites t i ws).spot_attrs = t.spot_attrs ∧
      (applyWrites t i ws).ch_labels = t.ch_labels ∧
      (applyWrites t i ws).round_labels = t.round_labels := by
  induction ws with
  | nil => intro t i; exact ⟨rfl, rfl, rfl⟩
  | cons w tl ih =>
    intro t i
    rw [applyWrites]
    exact ih _ _

theorem setCell_data (t : IntensityTable) (i : ℕ) (c r : ℤ) (v : ℚ)
    (j : ℕ) (c2 r2 : ℤ) :
    (t.setCell i c r v).data j c2 r2 =
      if j = i ∧ c2 = c ∧ r2 = r then v else t.data j c2 r2 := rfl

theorem applyWrites_data_lt (ws : List (FoundSpot × (ℤ × ℤ))) :
    ∀ (t : IntensityTable) (i j : ℕ) (c r : ℤ), j < i →
      (applyWrites t i ws).data j c r = t.data j c r := by
  induction ws with
  | nil => intro t i j c r _; rfl
  | cons w tl ih =>
    intro t i j c r hj
    rw [applyWrites, ih _ _ _ _ _ (by omega), setCell_data]
    rw [if_neg (by rintro ⟨rfl, -⟩; omega)]

theorem applyWrites_data_at (ws : List (FoundSpot × (ℤ × ℤ))) :
    ∀ (t : IntensityTable) (i k : ℕ) (s : FoundSpot) (key : ℤ × ℤ) (c r : ℤ),
      ws[k]? = some (s, key) →
      (applyWrites t i ws).data (i + k) c r =
        if c = key.1 ∧ r = key.2 then s.intensity else t.data (i + k) c r := by
  induction ws with
  | nil => intro t i k s key c r hk; simp at hk
  | cons w tl ih =>
    intro t i k s key c r hk
    cases k with
    | zero =>
      simp only [List.getElem?_cons_zero, Option.some.injEq] at hk
      subst hk
      rw [applyWrites, Nat.add_zero,
        applyWrites_data_lt _ _ _ _ _ _ (by omega), setCell_data]
      by_cases hcr : c = key.1 ∧ r = key.2
      · rw [if_pos ⟨rfl, hcr.1, hcr.2⟩, if_pos hcr]
      · rw [if_neg (by rintro ⟨-, h1, h2⟩; exact hcr ⟨h1, h2⟩), if_neg hcr]
    | succ k2 =>
      simp only [List.getElem?_cons_succ] at hk
      have h : i + (k2 + 1) = (i + 1) + k2 := by omega
      rw [applyWrites, h, ih _ _ _ _ _ _ _ hk]
      by_cases hcr : c = key.1 ∧ r = key.2
      · rw [if_pos hcr, if_pos hcr]
      · rw [if_neg hcr, if_neg hcr, setCell_data]
        rw [if_neg (by rintro ⟨h2, -⟩; omega)]

theorem frameWrites_map_fst (sa : List (DetectedTable × (ℤ × ℤ))) :
    (frameWrites sa).map (fun w => w.1) =
      (sa.map (fun p => p.1.rows)).flatten := by
  induction sa with
  | nil => rfl
  | cons p tl ih =>
    rw [frameWrites, List.map_cons, List.flatten_cons, List.map_append]
    rw [frameWrites] at ih
    rw [ih]
    congr 1
    rw [List.map_map]
    exact List.map_id _

theorem concatenate_eq_applyWrites (sa : List (DetectedTable × (ℤ × ℤ))) :
    concatenate_spot_attributes_to_intensities sa =
      applyWrites
        (IntensityTable.zeros
          (((sa.map (fun p => p.1.rows)).flatten).map (fun row => row.attrs))
          (sortedSet (sa.map (fun p => p.2.2)))
          (sortedSet (sa.map (fun p => p.2.1))))
        0 (frameWrites sa) := by
  show (sa.foldl (fun acc p => writeFrame p.2 p.1.rows acc)
      (IntensityTable.zeros
        (((sa.map (fun p => p.1.rows)).flatten).map (fun row => row.attrs))
        (sortedSet (sa.map (fun p => p.2.2)))
        (sortedSet (sa.map (fun p => p.2.1))), 0)).1 = _
  rw [concat_loop_eq]

/-- C7: the merged IntensityTable has channel and round label lists equal to
the sorted (ascending, duplicate-free) union of the channel and round values
observed across the input frames, and a feature axis whose length is the
total number of spot rows contributed across all frames. -/
theorem C7_merge_label_sets (sa : List (DetectedTable × (ℤ × ℤ))) :
    (concatenate_spot_attributes_to_intensities sa).ch_labels.Sorted
      (fun a b => a ≤ b) ∧
    (concatenate_spot_attributes_to_intensities sa).ch_labels.Nodup ∧
    (concatenate_spot_attributes_to_intensities sa).ch_labels.toFinset =
      (sa.map (fun p => p.2.1)).toFinset ∧
    (concatenate_spot_attributes_to_intensities sa).round_labels.Sorted
      (fun a b => a ≤ b) ∧
    (concatenate_spot_attributes_to_intensities sa).round_labels.Nodup ∧
    (concatenate_spot_attributes_to_intensities sa).round_labels.toFinset =
      (sa.map (fun p => p.2.2)).toFinset ∧
    (concatenate_spot_attributes_to_intensities sa).spot_attrs.length =
      (sa.map (fun p => p.1.rows.length)).sum := by
  rw [concatenate_eq_applyWrites]
  obtain ⟨hs, hc, hr⟩ := applyWrites_fields (frameWrites sa) _ 0
  rw [hs, hc, hr]
  refine ⟨sortedSet_sorted _, sortedSet_nodup _, sortedSet_toFinset _,
    sortedSet_sorted _, sortedSet_nodup _, sortedSet_toFinset _, ?_⟩
  rw [IntensityTable.zeros]
  simp only [List.length_map, List.length_flatten, List.map_map]
  rfl

/-- C8: feature indices in the merged table are assigned by concatenation
order across frames with no deduplication (the side table is exactly the
flattened list of rows), and the already-measured intensity of each row is
written only at the cell (its global position, its frame channel, its frame
round); every other (channel, round) cell of that feature keeps the zero
fill value. -/
theorem C8_merge_cell_writes (sa : List (DetectedTable × (ℤ × ℤ))) (k : ℕ)
    (s : FoundSpot) (key : ℤ × ℤ)
    (hk : (frameWrites sa)[k]? = some (s, key)) :
    (concatenate_spot_attributes_to_intensities sa).spot_attrs =
      (frameWrites sa).map (fun w => w.1.attrs) ∧
    (concatenate_spot_attributes_to_intensities sa).data k key.1 key.2 =
      s.intensity ∧
    ∀ c r : ℤ, ¬(c = key.1 ∧ r = key.2) →
      (concatenate_spot_attributes_to_intensities sa).data k c r = 0 := by
  rw [concatenate_eq_applyWrites]
  refine ⟨?_, ?_, ?_⟩
  · rw [(applyWrites_fields (frameWrites sa) _ 0).1, IntensityTable.zeros]
    rw [← frameWrites_map_fst, List.map_map]
    rfl
  · have h := applyWrites_data_at (frameWrites sa)
      (IntensityTable.zeros
        (((sa.map (fun p => p.1.rows)).flatten).map (fun row => row.attrs))
        (sortedSet (sa.map (fun p => p.2.2)))
        (sortedSet (sa.map (fun p => p.2.1))))
      0 k s key key.1 key.2 hk
    rw [Nat.zero_add] at h
    rw [h, if_pos ⟨rfl, rfl⟩]
  · intro c r hcr
    have h := applyWrites_data_at (frameWrites sa)
      (IntensityTable.zeros
        (((sa.map (fun p => p.1.rows)).flatten).map (fun row => row.attrs))
        (sortedSet (sa.map (fun p => p.2.2)))
        (sortedSet (sa.map (fun p => p.2.1))))
      0 k s key c r hk
    rw [Nat.zero_add] at h
    rw [h, if_neg hcr]
    rfl

/-- A concrete one-frame detection sequence: a single spot of intensity 9
detected in the frame (channel 0, round 0). -/
def cFrames : List (DetectedTable × (ℤ × ℤ)) :=
  [(⟨true, [⟨⟨0, 0, 0, 1⟩, 0, 9⟩]⟩, (0, 0))]

theorem C8_merge_cell_writes_witness :
    (concatenate_spot_attributes_to_intensities cFrames).spot_attrs =
      (frameWrites cFrames).map (fun w => w.1.attrs) ∧
    (concatenate_spot_attributes_to_intensities cFrames).data 0 0 0 = 9 ∧
    (concatenate_spot_attributes_to_intensities cFrames).data 0 1 0 = 0 :=
  have h := C8_merge_cell_writes cFrames 0 ⟨⟨0, 0, 0, 1⟩, 0, 9⟩ (0, 0) rfl
  ⟨h.1, h.2.1, h.2.2 1 0 (by norm_num)⟩

/-- C9: detect_spots selects exactly one of two strategies by whether a
reference image is supplied: with one, it runs the finder once on the
optionally max-projected reference array and measures those spots across
the full data stack (labels taken from the data stack); without one, it
applies the finder to every (channel, round) frame through the grouped map
of the stack and merges the per-frame results; in both strategies the
physical-coordinate transfer collaborator is applied to the produced table
before it is returned. -/
theorem C9_strategy_selection
    (transfer : ImageStack → IntensityTable → IntensityTable)
    (data_stack : ImageStack) (finder : PyImage → DetectedTable)
    (ref : ImageStack) (axes : List ℕ) (projOpt : Option (List ℕ))
    (M : Meas) (g : Bool) :
    (detect_spots transfer data_stack finder (some ref) (some axes) M g =
      (measure_spot_intensities data_stack
          (finder (ref.maxProjSqueezed axes)).toSpotsIn M g).map
        (fun res => transfer data_stack res.1)) ∧
    (detect_spots transfer data_stack finder (some ref) none M g =
      (measure_spot_intensities data_stack
          (finder ref.xarrayImg).toSpotsIn M g).map
        (fun res => transfer data_stack res.1)) ∧
    (detect_spots transfer data_stack finder none projOpt M g =
      .ok (transfer data_stack
        (concatenate_spot_attributes_to_intensities
          (data_stack.transform finder)))) := by
  refine ⟨?_, ?_, rfl⟩
  · cases h : measure_spot_intensities data_stack
        (finder (ref.maxProjSqueezed axes)).toSpotsIn M g with
    | error e => simp [detect_spots, h, Except.map]
    | ok res => simp [detect_spots, h, Except.map]
  · cases h : measure_spot_intensities data_stack
        (finder ref.xarrayImg).toSpotsIn M g with
    | error e => simp [detect_spots, h, Except.map]
    | ok res => simp [detect_spots, h, Except.map]
